import Mathlib

/-!
Verification of the replay-log codec and PostgreSQL chunk classifier of
`tcp-replay-reverse-proxy`.

Bytes are modelled as `Nat` values and byte strings (Go `[]byte` / `string`)
as `List Nat`.  Go slices in this program are created with `cap = len`
(`make([]byte, n)` and literal slices), so a slice expression `b[lo:hi]` with
`hi > len(b)` panics; fallible Go functions are modelled with `Except` /
`Option`, and a Go runtime panic with an explicit `panic` outcome of the
`GoResult` type.
-/

deriving instance DecidableEq for Except

namespace TcpReplay

/-- Big-endian byte encoding of `v`, exactly `w` bytes wide (the value is
taken modulo `256 ^ w`, as Go's fixed-width `PutUint32` / `PutUint64` do). -/
def beBytes : Nat → Nat → List Nat
  | 0, _ => []
  | w + 1, v => beBytes w (v / 256) ++ [v % 256]

/-- Big-endian interpretation of a byte list, as in Go's
`binary.BigEndian.Uint32` / `Uint64`. -/
def beUint (l : List Nat) : Nat :=
  l.foldl (fun acc b => acc * 256 + b) 0

/-- `bigEndianPackUint32` from `postgres/parse.go`, specialised to the two
32-bit words it is always called with. -/
def bigEndianPackUint32 (a b : Nat) : List Nat :=
  beBytes 4 a ++ beBytes 4 b

/-- `cancelRequestPrefix` from `postgres/parse.go`. -/
def cancelRequestMagic : List Nat := bigEndianPackUint32 8 80877102

/-- `sslRequest` from `postgres/parse.go`. -/
def sslRequestMagic : List Nat := bigEndianPackUint32 8 80877103

/-- `gssEncReq` from `postgres/parse.go`. -/
def gssEncReqMagic : List Nat := bigEndianPackUint32 8 80877104

/-- `postgresProtocolVersion` from `postgres/parse.go`. -/
def postgresProtocolVersion : List Nat := [0, 3, 0, 0]

/-- Go slice expression `b[lo:hi]` on a slice with `cap = len`: `none`
models the runtime panic raised when `hi > len b` (or `lo > hi`). -/
def goSlice (b : List Nat) (lo hi : Nat) : Option (List Nat) :=
  if lo ≤ hi ∧ hi ≤ b.length then some ((b.take hi).drop lo) else none

/-- Errors produced on the `ParseChunk` path.  `parsingClientMessage min has`
is the wrapped `ErrParsingClientMessage` "message must contain at least
`min` bytes, has `has`"; `expectedStartup` is the wrapped
`ErrParsingClientMessage` "expected a startup message"; `notImplemented` is
the wrapped `ErrNotImplemented` for the `'F'` (FunctionCall) tag;
`invalidMessageFormat` is `pgproto3`'s invalid-message-format error. -/
inductive PgErr where
  | parsingClientMessage (minBytes has : Nat)
  | notImplemented
  | invalidMessageFormat (tag : Nat)
  | expectedStartup
  deriving DecidableEq, Repr

/-- The classifier's result variants (`pgproto3.FrontendMessage`
implementations).  The decoders of the external `pgproto3` library are pure
functions of the body bytes `chunk[5:]` alone; for the message kinds whose
internal decoding no property here depends on, the variant carries that raw
body. `query` carries the decoded SQL text and `byte1p` the raw data of the
repository's own `Byte1pMessage`. -/
inductive Msg where
  | bind (body : List Nat)
  | close (body : List Nat)
  | copyData (body : List Nat)
  | copyDone (body : List Nat)
  | copyFail (body : List Nat)
  | describe (body : List Nat)
  | execute (body : List Nat)
  | flush (body : List Nat)
  | parseStmt (body : List Nat)
  | query (sql : List Nat)
  | sync (body : List Nat)
  | terminate (body : List Nat)
  | byte1p (data : List Nat)
  | cancelRequest (body : List Nat)
  | sslRequest
  | gssEncRequest
  | startup (body : List Nat)
  deriving DecidableEq, Repr

/-- Outcome of running a piece of Go code: a value, a returned error, or a
runtime panic. -/
inductive GoResult (ε α : Type) where
  | ok (a : α)
  | err (e : ε)
  | panic
  deriving DecidableEq, Repr

/-- `pgproto3.Query.Decode`: the first NUL byte must be the final byte of
the body; the SQL text is everything before it.  On an empty body the Go
code reaches `src[:i]` with `i = -1` and panics. -/
def queryDecode (src : List Nat) : GoResult PgErr Msg :=
  match src.findIdx? (fun b => b = 0) with
  | none => if src.length = 0 then .panic else .err (.invalidMessageFormat 81)
  | some i =>
      if i + 1 = src.length then .ok (.query (src.take i))
      else .err (.invalidMessageFormat 81)

/-- `Byte1pMessage.Decode`: stores the raw body bytes, never fails. -/
def byte1pDecode (src : List Nat) : GoResult PgErr Msg :=
  .ok (.byte1p src)

/-- The tag registry of `parseFrontendMessage` (its `switch` statement):
maps a tag byte to the result of running that tag's decode routine on the
body `chunk[5:]`; `none` is the `default` branch (not a registered tag). -/
def registryDecode (t : Nat) (body : List Nat) : Option (GoResult PgErr Msg) :=
  if t = 66 then some (.ok (.bind body))            -- 'B'
  else if t = 67 then some (.ok (.close body))      -- 'C'
  else if t = 100 then some (.ok (.copyData body))  -- 'd'
  else if t = 99 then some (.ok (.copyDone body))   -- 'c'
  else if t = 102 then some (.ok (.copyFail body))  -- 'f'
  else if t = 68 then some (.ok (.describe body))   -- 'D'
  else if t = 69 then some (.ok (.execute body))    -- 'E'
  else if t = 72 then some (.ok (.flush body))      -- 'H'
  else if t = 70 then some (.err .notImplemented)   -- 'F'
  else if t = 80 then some (.ok (.parseStmt body))  -- 'P'
  else if t = 81 then some (queryDecode body)       -- 'Q'
  else if t = 83 then some (.ok (.sync body))       -- 'S'
  else if t = 88 then some (.ok (.terminate body))  -- 'X'
  else if t = 112 then some (byte1pDecode body)     -- 'p'
  else none

/-- The registered tag bytes: `B C d c f D E H F P Q S X p`. -/
def registryTags : List Nat :=
  [66, 67, 100, 99, 102, 68, 69, 72, 70, 80, 81, 83, 88, 112]

/-- Wraps a decoder outcome into `parseFrontendMessage`'s result, whose
`.ok none` means the Go `(nil, nil)` return of the `default` branch. -/
def liftMsg : GoResult PgErr Msg → GoResult PgErr (Option Msg)
  | .ok m => .ok (some m)
  | .err e => .err e
  | .panic => .panic

/-- `parseFrontendMessage` from `postgres/parse.go`: chunks shorter than 5
bytes are rejected, then the first byte is dispatched through the tag
registry on the body `chunk[5:]`; an unregistered tag returns `(nil, nil)`,
modelled `.ok none`. -/
def parseFrontendMessage (chunk : List Nat) : GoResult PgErr (Option Msg) :=
  if chunk.length < 5 then .err (.parsingClientMessage 5 chunk.length)
  else
    match registryDecode (chunk.headD 0) (chunk.drop 5) with
    | some r => liftMsg r
    | none => .ok none

/-- `pgproto3.CancelRequest.Decode` applied to `chunk[4:]`, modelled as a
function of those bytes alone (its internal checks are external-library
behaviour no property here depends on). -/
def cancelDecode (src : List Nat) : GoResult PgErr Msg :=
  .ok (.cancelRequest src)

/-- `pgproto3.StartupMessage.Decode` applied to `chunk[4:]`, modelled as a
function of those bytes alone (its internal parsing is external-library
behaviour no property here depends on). -/
def startupDecode (src : List Nat) : GoResult PgErr Msg :=
  .ok (.startup src)

/-- `ParseChunk` from `postgres/parse.go`.  After the tagged path declines,
the Go code checks only `len(chunk) == 0` before evaluating
`bytes.Equal(chunk[:8], ...)`; the slice expression `chunk[:8]` panics when
the chunk holds fewer than 8 bytes (chunks are built with `cap = len`). -/
def ParseChunk (chunk : List Nat) : GoResult PgErr Msg :=
  match parseFrontendMessage chunk with
  | .err e => .err e
  | .panic => .panic
  | .ok (some m) => .ok m
  | .ok none =>
      if chunk.length = 0 then .err (.parsingClientMessage 8 chunk.length)
      else
        match goSlice chunk 0 8 with
        | none => .panic
        | some first8 =>
            if first8 = cancelRequestMagic then cancelDecode (chunk.drop 4)
            else if first8 = sslRequestMagic then .ok .sslRequest
            else if first8 = gssEncReqMagic then .ok .gssEncRequest
            else if (chunk.drop 4).take 4 ≠ postgresProtocolVersion then
              .err .expectedStartup
            else startupDecode (chunk.drop 4)

/-- `putUint32BE dst idx v` models `binary.BigEndian.PutUint32(dst[idx:], v)`
overwriting 4 bytes of `dst` at position `idx`. -/
def putUint32BE (dst : List Nat) (idx : Nat) (v : Nat) : List Nat :=
  dst.take idx ++ beBytes 4 v ++ dst.drop (idx + 4)

/-- `Byte1pMessage.Encode` from the repository: appends the `'p'` tag byte,
four placeholder bytes that are then overwritten with the big-endian length
`4 + len(Data)`, and the raw data. -/
def byte1pEncode (data : List Nat) (dst : List Nat) : List Nat :=
  let dst1 := dst ++ [112]
  let idx := dst1.length
  let dst2 := dst1 ++ [0, 0, 0, 0]
  let dst3 := putUint32BE dst2 idx (4 + data.length)
  dst3 ++ data

/-- Error values of `net.SplitHostPort` (each a `net.AddrError`). -/
inductive SplitErr where
  | missingPort
  | tooManyColons
  | missingRBracket
  | unexpectedLBracket
  | unexpectedRBracket
  deriving DecidableEq, Repr

/-- The error variants `NewAddr` can return: a `net.AddrError` propagated
from `net.SplitHostPort`, the repository's typed `ErrParsingIP` wrapped with
the offending host text, or a `strconv.NumError` propagated from
`strconv.ParseUint`. -/
inductive AddrErr where
  | hostPort (e : SplitErr)
  | parsingIP (host : List Nat)
  | numError
  deriving DecidableEq, Repr

/-- Index of the last occurrence of byte `b` (Go `last` /
`strings.LastIndexByte`). -/
def lastIdxOf (b : Nat) : List Nat → Option Nat
  | [] => none
  | x :: xs =>
      match lastIdxOf b xs with
      | some i => some (i + 1)
      | none => if x = b then some 0 else none

/-- `net.SplitHostPort` (Go standard library): split on the last colon,
honouring `[...]` bracketing. -/
def splitHostPort (s : List Nat) : Except SplitErr (List Nat × List Nat) :=
  match lastIdxOf 58 s with
  | none => .error .missingPort
  | some i =>
      if s.headD 0 = 91 then
        match s.findIdx? (fun b => b = 93) with
        | none => .error .missingRBracket
        | some e =>
            if e + 1 = s.length then .error .missingPort
            else if e + 1 = i then
              if 91 ∈ s.drop 1 then .error .unexpectedLBracket
              else if 93 ∈ s.drop (e + 1) then .error .unexpectedRBracket
              else .ok ((s.take e).drop 1, s.drop (i + 1))
            else if s.getD (e + 1) 0 = 58 then .error .tooManyColons
            else .error .missingPort
      else
        if 58 ∈ s.take i then .error .tooManyColons
        else if 91 ∈ s then .error .unexpectedLBracket
        else if 93 ∈ s then .error .unexpectedRBracket
        else .ok (s.take i, s.drop (i + 1))

/-- ASCII decimal digit test. -/
def isDigit (b : Nat) : Bool := decide (48 ≤ b) && decide (b ≤ 57)

/-- ASCII hexadecimal digit test. -/
def isHexChar (b : Nat) : Bool :=
  isDigit b || (decide (97 ≤ b) && decide (b ≤ 102)) ||
    (decide (65 ≤ b) && decide (b ≤ 70))

/-- Value of a hexadecimal digit character. -/
def hexVal (b : Nat) : Nat :=
  if isDigit b then b - 48 else if 97 ≤ b ∧ b ≤ 102 then b - 87 else b - 55

/-- Go's `dtoi`: leading decimal digits and their count; fails when there
is no digit or the value reaches the `big` cutoff `0xFFFFFF`. -/
def dtoi (s : List Nat) : Option (Nat × Nat) :=
  let ds := s.takeWhile isDigit
  if ds = [] then none
  else
    let v := ds.foldl (fun a b => a * 10 + (b - 48)) 0
    if 16777215 ≤ v then none else some (v, ds.length)

/-- Go's `xtoi`: leading hexadecimal digits and their count, with the same
`big` cutoff. -/
def xtoi (s : List Nat) : Option (Nat × Nat) :=
  let ds := s.takeWhile isHexChar
  if ds = [] then none
  else
    let v := ds.foldl (fun a b => a * 16 + hexVal b) 0
    if 16777215 ≤ v then none else some (v, ds.length)

/-- The field loop of Go's `parseIPv4`: exactly `k` dot-separated decimal
octets, each at most 255 and without a leading zero, consuming the whole
string. -/
def parseIPv4Fields : Nat → List Nat → Option (List Nat)
  | 0, s => if s = [] then some [] else none
  | k + 1, s =>
      match dtoi s with
      | none => none
      | some (n, c) =>
          if 255 < n then none
          else if 1 < c ∧ s.headD 0 = 48 then none
          else
            match k, s.drop c with
            | 0, [] => some [n]
            | kk + 1, 46 :: rest2 =>
                match parseIPv4Fields (kk + 1) rest2 with
                | none => none
                | some fs => some (n :: fs)
            | _, _ => none

/-- Go's IPv4-in-IPv6 prefix (`v4InV6Prefix`). -/
def v4InV6Pfx : List Nat := [0, 0, 0, 0, 0, 0, 0, 0, 0, 0, 255, 255]

/-- Go's `parseIPv4` wrapped in `net.IPv4`, yielding the 16-byte form that
`net.ParseIP` returns for dotted quads. -/
def parseIPv4 (s : List Nat) : Option (List Nat) :=
  match parseIPv4Fields 4 s with
  | none => none
  | some p => some (v4InV6Pfx ++ p)

/-- The main loop of Go's `parseIPv6`: `acc` holds the bytes filled so far,
`ell` the byte position of a `::` when seen; `fuel` bounds the iteration
count (at most 8 rounds fill 16 bytes, 2 per round), and running out of
fuel is the `i = 16` loop exit, which demands an exhausted input. -/
def parseIPv6Loop : Nat → List Nat → List Nat → Option Nat →
    Option (List Nat × Option Nat)
  | 0, s, acc, ell => if s = [] then some (acc, ell) else none
  | fuel + 1, s, acc, ell =>
      match xtoi s with
      | none => none
      | some (n, c) =>
          if 65535 < n then none
          else if c < s.length ∧ s.getD c 0 = 46 then
            if ell = none ∧ acc.length ≠ 12 then none
            else if 16 < acc.length + 4 then none
            else
              match parseIPv4Fields 4 s with
              | none => none
              | some p4 => some (acc ++ p4, ell)
          else
            let acc2 := acc ++ [n / 256, n % 256]
            let s2 := s.drop c
            if s2 = [] then some (acc2, ell)
            else if s2.headD 0 ≠ 58 ∨ s2.length = 1 then none
            else
              let s3 := s2.drop 1
              if s3.headD 0 = 58 then
                if ell ≠ none then none
                else
                  let s4 := s3.drop 1
                  if s4 = [] then some (acc2, some acc2.length)
                  else parseIPv6Loop fuel s4 acc2 (some acc2.length)
              else parseIPv6Loop fuel s3 acc2 ell

/-- The `::` expansion at the end of Go's `parseIPv6` (the two shifting
loops). -/
def parseIPv6Finish (acc : List Nat) (ell : Option Nat) : Option (List Nat) :=
  if acc.length < 16 then
    match ell with
    | none => none
    | some e => some (acc.take e ++ List.replicate (16 - acc.length) 0 ++ acc.drop e)
  else
    match ell with
    | none => some acc
    | some _ => none

/-- Go's `parseIPv6` after the zone split. -/
def parseIPv6NoZone (s0 : List Nat) : Option (List Nat) :=
  if 2 ≤ s0.length ∧ s0.headD 0 = 58 ∧ (s0.drop 1).headD 0 = 58 then
    if s0.drop 2 = [] then some (List.replicate 16 0)
    else
      match parseIPv6Loop 8 (s0.drop 2) [] (some 0) with
      | none => none
      | some (acc, ell) => parseIPv6Finish acc ell
  else
    match parseIPv6Loop 8 s0 [] none with
    | none => none
    | some (acc, ell) => parseIPv6Finish acc ell

/-- `net.parseIPv6Zone`: strips an interface zone after the last `'%'`
(only when its index is positive); `ParseIP` discards the zone. -/
def parseIPv6Zone (s : List Nat) : Option (List Nat) :=
  match lastIdxOf 37 s with
  | some i => if 0 < i then parseIPv6NoZone (s.take i) else parseIPv6NoZone s
  | none => parseIPv6NoZone s

/-- `net.ParseIP`: scan for the first `'.'` or `':'`; a dot selects the
IPv4 parser, a colon the IPv6 parser, neither means not an IP literal. -/
def parseIP (s : List Nat) : Option (List Nat) :=
  match s.findIdx? (fun b => b = 46 || b = 58) with
  | none => none
  | some i => if s.getD i 0 = 46 then parseIPv4 s else parseIPv6Zone s

/-- `strconv.ParseUint(s, 10, 16)`: decimal digits only, value within 16
bits; any failure is a `strconv.NumError` (syntax or range), modelled as
`.error ()`. -/
def parseUint16 (s : List Nat) : Except Unit Nat :=
  if s = [] then .error ()
  else if s.all isDigit then
    let v := s.foldl (fun a b => a * 10 + (b - 48)) 0
    if v ≤ 65535 then .ok v else .error ()
  else .error ()

/-- `Addr` from `parse/stream_addr`: a Go `net.IP` byte string and a
16-bit port. -/
structure Addr where
  IP : List Nat
  Port : Nat
  deriving DecidableEq, Repr

/-- `NewAddr` from the `parse` package: split the token, validate the host
as an IP literal, parse the port as an unsigned decimal in `[0, 65535]`. -/
def NewAddr (b : List Nat) : Except AddrErr Addr :=
  match splitHostPort b with
  | .error e => .error (.hostPort e)
  | .ok (host, portStr) =>
      match parseIP host with
      | none => .error (.parsingIP host)
      | some ip =>
          match parseUint16 portStr with
          | .error _ => .error .numError
          | .ok port => .ok ⟨ip, port⟩

/-- ASCII decimal digits of `n`, most significant first; the first argument
is fuel (always called with `n` itself, which bounds the digit count). -/
def decReprAux : Nat → Nat → List Nat
  | 0, _ => []
  | fuel + 1, n => if n = 0 then [] else decReprAux fuel (n / 10) ++ [48 + n % 10]

/-- Decimal ASCII representation of `n` (Go's `%d`). -/
def decRepr (n : Nat) : List Nat := if n = 0 then [48] else decReprAux n n

/-- Lowercase hexadecimal digit character of a nibble. -/
def hexDigit (n : Nat) : Nat := if n < 10 then 48 + n else 87 + n

/-- Hexadecimal digits of `n`, most significant first, fuel-based. -/
def hexReprAux : Nat → Nat → List Nat
  | 0, _ => []
  | fuel + 1, n => if n = 0 then [] else hexReprAux fuel (n / 16) ++ [hexDigit (n % 16)]

/-- Hexadecimal representation without leading zeros (Go's `appendHex`). -/
def hexRepr (n : Nat) : List Nat := if n = 0 then [48] else hexReprAux n n

/-- Two fixed hexadecimal digits of one byte (Go's `hexString`, per byte). -/
def hexByte (b : Nat) : List Nat := [hexDigit (b / 16 % 16), hexDigit (b % 16)]

/-- Go's `hexString` over a byte string. -/
def hexBytes : List Nat → List Nat
  | [] => []
  | b :: rest => hexByte b ++ hexBytes rest

/-- `net.IP.To4`. -/
def To4 (ip : List Nat) : Option (List Nat) :=
  if ip.length = 4 then some ip
  else if ip.length = 16 ∧ ip.take 12 = v4InV6Pfx then some (ip.drop 12)
  else none

/-- Number of leading zero groups. -/
def zeroRunLen : List Nat → Nat
  | 0 :: rest => zeroRunLen rest + 1
  | _ => 0

/-- Leftmost longest run (at least two) of zero groups, as the group
interval `[e0, e1)` (the `e0`/`e1` scan of `net.IP.String`, in 16-bit group
units). -/
def bestZeroRun (gs : List Nat) : Option (Nat × Nat) :=
  let best := (List.range gs.length).foldl
    (fun b i =>
      if b.2 - b.1 < zeroRunLen (gs.drop i) then (i, i + zeroRunLen (gs.drop i))
      else b)
    (0, 0)
  if 2 ≤ best.2 - best.1 then some best else none

/-- The 16-bit groups of a 16-byte IPv6 address. -/
def v6Groups (ip : List Nat) : List Nat :=
  (List.range 8).map (fun k => ip.getD (2 * k) 0 * 256 + ip.getD (2 * k + 1) 0)

/-- The rendering loop of `net.IP.String` with `::` compression; `e0`/`e1`
are in group units with sentinel 9 when nothing is compressed. -/
def v6StrFrom : Nat → Nat → List Nat → Nat → Nat → List Nat
  | 0, _, _, _, _ => []
  | fuel + 1, i, gs, e0, e1 =>
      if 8 ≤ i then []
      else if i = e0 then
        58 :: 58 :: (if 8 ≤ e1 then []
          else hexRepr (gs.getD e1 0) ++ v6StrFrom fuel (e1 + 1) gs e0 e1)
      else
        (if 0 < i then [58] else []) ++ hexRepr (gs.getD i 0)
          ++ v6StrFrom fuel (i + 1) gs e0 e1

/-- `net.IP.String`: `"<nil>"` for an empty IP, a dotted quad when `To4`
succeeds, the `"?"`-prefixed raw hex dump for irregular lengths, otherwise
compressed lowercase IPv6 text. -/
def ipString (ip : List Nat) : List Nat :=
  if ip.length = 0 then [60, 110, 105, 108, 62]
  else
    match To4 ip with
    | some p4 =>
        decRepr (p4.getD 0 0) ++ 46 :: decRepr (p4.getD 1 0) ++ 46 ::
          decRepr (p4.getD 2 0) ++ 46 :: decRepr (p4.getD 3 0)
    | none =>
        if ip.length ≠ 16 then 63 :: hexBytes ip
        else
          match bestZeroRun (v6Groups ip) with
          | some (e0, e1) => v6StrFrom 9 0 (v6Groups ip) e0 e1
          | none => v6StrFrom 9 0 (v6Groups ip) 9 9

/-- `Addr.String`: `fmt.Sprintf("%s:%d", a.IP, a.Port)`. -/
def addrString (a : Addr) : List Nat := ipString a.IP ++ 58 :: decRepr a.Port

/-- Stream-side errors: `io.EOF`, `io.ErrUnexpectedEOF`, or an address
parse error propagated from `NewAddr`. -/
inductive ReadErr where
  | eof
  | unexpectedEOF
  | addr (e : AddrErr)
  deriving DecidableEq, Repr

/-- `io.ReadFull(br, buf)` with `len(buf) = k` over a byte-list source:
returns the bytes read, their count, the error, and the remaining source.
Reading zero of a positive request is `io.EOF`, a partial read is
`io.ErrUnexpectedEOF`, and a zero-length request always succeeds. -/
def readFull (k : Nat) (s : List Nat) :
    List Nat × Nat × Option ReadErr × List Nat :=
  if k = 0 then ([], 0, none, s)
  else if s.length = 0 then ([], 0, some .eof, s)
  else if s.length < k then (s, s.length, some .unexpectedEOF, [])
  else (s.take k, k, none, s.drop k)

/-- `bufio.Reader.ReadBytes(' ')`: everything up to and including the first
space byte; exhaustion before a space yields what was read plus `io.EOF`. -/
def readBytesSpace (s : List Nat) : List Nat × Option ReadErr × List Nat :=
  match s.findIdx? (fun b => b = 32) with
  | some i => (s.take (i + 1), none, s.drop (i + 1))
  | none => (s, some .eof, [])

/-- `TCPPacket` from the `parse` package.  `Timestamp` is the UTC instant
as nanoseconds since the epoch (the value `time.Unix(sec, nsec).UTC()` is
built from in `TCPPacket.Read`). -/
structure TCPPacket where
  Timestamp : Nat
  ClientAddr : Addr
  ServerAddr : Addr
  Chunk : List Nat
  deriving DecidableEq, Repr

/-- Result of one `TCPPacket.Read` call: the `bytesRead` count, the packet
or error, and the unconsumed remainder of the source. -/
structure ReadOutcome where
  n : Nat
  res : Except ReadErr TCPPacket
  rest : List Nat
  deriving DecidableEq, Repr

/-- One address-token step of `TCPPacket.Read`: `ReadBytes(' ')` followed by
`NewAddr` on the token without its trailing space.  Returns the number of
bytes consumed together with either the error or the address. -/
def readAddrToken (s : List Nat) :
    Except (Nat × ReadErr × List Nat) (Nat × Addr × List Nat) :=
  match readBytesSpace s with
  | (cb, some e, s2) => .error (cb.length, e, s2)
  | (cb, none, s2) =>
      match NewAddr (cb.take (cb.length - 1)) with
      | .error e => .error (cb.length, .addr e, s2)
      | .ok a => .ok (cb.length, a, s2)

/-- The size-header and payload steps of `TCPPacket.Read`: 4 bytes of
big-endian length, then exactly that many payload bytes.  `n0` is the byte
count consumed by the earlier steps. -/
def tcpReadLenChunk (n0 : Nat) (tsBytes : List Nat) (ca sa : Addr)
    (s3 : List Nat) : ReadOutcome :=
  match readFull 4 s3 with
  | (_, n4, some e, s4) => ⟨n0 + n4, .error e, s4⟩
  | (szBytes, _, none, s4) =>
      match readFull (beUint szBytes) s4 with
      | (_, n5, some e, s5) => ⟨n0 + 4 + n5, .error e, s5⟩
      | (ck, n5, none, s5) =>
          ⟨n0 + 4 + n5, .ok ⟨beUint tsBytes, ca, sa, ck⟩, s5⟩

/-- `TCPPacket.Read`: 8 timestamp bytes, two space-terminated address
tokens, a 4-byte length, and the payload, in fixed order, accumulating the
byte count consumed. -/
def tcpRead (s : List Nat) : ReadOutcome :=
  match readFull 8 s with
  | (_, n1, some e, s1) => ⟨n1, .error e, s1⟩
  | (tsBytes, _, none, s1) =>
      match readAddrToken s1 with
      | .error (m1, e, s2) => ⟨8 + m1, .error e, s2⟩
      | .ok (m1, ca, s2) =>
          match readAddrToken s2 with
          | .error (m2, e, s3) => ⟨8 + m1 + m2, .error e, s3⟩
          | .ok (m2, sa, s3) => tcpReadLenChunk (8 + m1 + m2) tsBytes ca sa s3

/-- `ReplayLogStream.Next`: runs `TCPPacket.Read` and converts an `io.EOF`
seen after at least one consumed byte into `io.ErrUnexpectedEOF`; the
advanced source is returned alongside the packet. -/
def Next (s : List Nat) : Except ReadErr (TCPPacket × List Nat) :=
  match tcpRead s with
  | ⟨n, .error e, _⟩ =>
      if e = .eof ∧ n ≠ 0 then .error .unexpectedEOF else .error e
  | ⟨_, .ok tp, rest⟩ => .ok (tp, rest)

/-- Modelled from the spec: the replay-log write path is not under `src/`
(only the read path `TCPPacket.Read` is); §4.2 and §6 of the spec define
the record wire form it produces — an 8-byte big-endian nanosecond
timestamp, each address's canonical `ip:port` text terminated by a single
space byte, a 4-byte big-endian payload length, then the payload, with no
other delimiter. -/
def encodeRecord (r : TCPPacket) : List Nat :=
  beBytes 8 r.Timestamp ++ addrString r.ClientAddr ++ [32]
    ++ addrString r.ServerAddr ++ [32] ++ beBytes 4 r.Chunk.length ++ r.Chunk

/-- A Captured Record with a valid address pair and representable fields:
both addresses round-trip through the Address Codec, the timestamp fits the
8-byte wire field, and the payload length fits the 4-byte length field. -/
def ValidRecord (r : TCPPacket) : Prop :=
  NewAddr (addrString r.ClientAddr) = .ok r.ClientAddr ∧
    NewAddr (addrString r.ServerAddr) = .ok r.ServerAddr ∧
    r.Timestamp < 2 ^ 64 ∧ r.Chunk.length < 2 ^ 32

instance (r : TCPPacket) : Decidable (ValidRecord r) := by
  unfold ValidRecord; infer_instance

theorem beBytes_length (w : Nat) : ∀ v, (beBytes w v).length = w := by
  induction w with
  | zero => intro v; rfl
  | succ w ih => intro v; simp [beBytes, ih]

theorem findIdx_not_mem_append (c : Nat) (tok rest : List Nat) (h : c ∉ tok) :
    (tok ++ c :: rest).findIdx? (fun b => b = c) = some tok.length := by
  induction tok with
  | nil => simp [List.findIdx?_cons]
  | cons a as ih =>
      have ha : a ≠ c := fun hh => h (hh ▸ List.mem_cons_self a as)
      have has : c ∉ as := fun hh => h (List.mem_cons_of_mem a hh)
      simp [List.findIdx?_cons, ha, ih has]

theorem findIdx_not_mem (c : Nat) (s : List Nat) (h : c ∉ s) :
    s.findIdx? (fun b => b = c) = none := by
  induction s with
  | nil => rfl
  | cons a as ih =>
      have ha : a ≠ c := fun hh => h (hh ▸ List.mem_cons_self a as)
      have has : c ∉ as := fun hh => h (List.mem_cons_of_mem a hh)
      simp [List.findIdx?_cons, ha, ih has]

theorem beUint_append_one (l : List Nat) (b : Nat) :
    beUint (l ++ [b]) = beUint l * 256 + b := by
  simp [beUint, List.foldl_append]

theorem beUint_beBytes (w : Nat) : ∀ v, v < 256 ^ w → beUint (beBytes w v) = v := by
  induction w with
  | zero => intro v hv; interval_cases v; rfl
  | succ w ih =>
      intro v hv
      have hdiv : v / 256 < 256 ^ w := by
        rw [Nat.div_lt_iff_lt_mul (by norm_num)]
        calc v < 256 ^ (w + 1) := hv
        _ = 256 ^ w * 256 := by ring
      rw [beBytes, beUint_append_one, ih (v / 256) hdiv]
      omega

theorem readFull_exact (a rest : List Nat) :
    readFull a.length (a ++ rest) = (a, a.length, none, rest) := by
  rcases a with _ | ⟨x, xs⟩
  · simp [readFull]
  · rw [readFull]
    rw [if_neg (by simp), if_neg (by simp), if_neg (by simp [List.length_append]),
      List.take_left, List.drop_left]

theorem readFull_nil (k : Nat) (h : k ≠ 0) :
    readFull k [] = ([], 0, some .eof, []) := by
  simp [readFull, h]

theorem readFull_partial (k : Nat) (s : List Nat) (h0 : s ≠ [])
    (hk : s.length < k) :
    readFull k s = (s, s.length, some .unexpectedEOF, []) := by
  rw [readFull, if_neg (by omega), if_neg (by simp [h0]), if_pos hk]

theorem readFull_eof_inv (k : Nat) (s bs s1 : List Nat) (n : Nat)
    (h : readFull k s = (bs, n, some .eof, s1)) : s = [] ∧ n = 0 := by
  rw [readFull] at h
  split at h
  · simp at h
  · split at h
    · simp only [Prod.mk.injEq] at h
      exact ⟨List.length_eq_zero.1 (by omega), h.2.1.symm⟩
    · split at h <;> simp at h

theorem readBytesSpace_token (tok rest : List Nat) (h : 32 ∉ tok) :
    readBytesSpace (tok ++ 32 :: rest) = (tok ++ [32], none, rest) := by
  have h1 : (tok ++ [32]).length = tok.length + 1 := by simp
  have h2 : tok ++ 32 :: rest = (tok ++ [32]) ++ rest := by simp
  rw [readBytesSpace, findIdx_not_mem_append 32 tok rest h, h2]
  simp only [List.take_left' h1, List.drop_left' h1]

theorem readBytesSpace_exhaust (s : List Nat) (h : 32 ∉ s) :
    readBytesSpace s = (s, some .eof, []) := by
  rw [readBytesSpace, findIdx_not_mem 32 s h]

theorem readAddrToken_ok (tok rest : List Nat) (a : Addr) (h : 32 ∉ tok)
    (ha : NewAddr tok = .ok a) :
    readAddrToken (tok ++ 32 :: rest) = .ok (tok.length + 1, a, rest) := by
  have h1 : (tok ++ [32]).length = tok.length + 1 := by simp
  have h3 : (tok ++ [32]).take tok.length = tok := List.take_left' rfl
  rw [readAddrToken, readBytesSpace_token tok rest h]
  simp only [h1, Nat.add_sub_cancel, h3, ha]

theorem readAddrToken_exhaust (s : List Nat) (h : 32 ∉ s) :
    readAddrToken s = .error (s.length, .eof, []) := by
  rw [readAddrToken, readBytesSpace_exhaust s h]

theorem mem_decReprAux_bounds (fuel : Nat) :
    ∀ n b, b ∈ decReprAux fuel n → 48 ≤ b ∧ b ≤ 57 := by
  induction fuel with
  | zero => intro n b hb; simp [decReprAux] at hb
  | succ fuel ih =>
      intro n b hb
      rw [decReprAux] at hb
      split at hb
      · simp at hb
      · rcases List.mem_append.1 hb with h | h
        · exact ih _ b h
        · simp at h
          omega

theorem mem_decRepr_bounds (n b : Nat) (hb : b ∈ decRepr n) :
    48 ≤ b ∧ b ≤ 57 := by
  rw [decRepr] at hb
  split at hb
  · simp at hb; omega
  · exact mem_decReprAux_bounds n n b hb

theorem hexDigit_ge (m : Nat) : 48 ≤ hexDigit m := by
  rw [hexDigit]; split <;> omega

theorem mem_hexReprAux_ge (fuel : Nat) :
    ∀ n b, b ∈ hexReprAux fuel n → 48 ≤ b := by
  induction fuel with
  | zero => intro n b hb; simp [hexReprAux] at hb
  | succ fuel ih =>
      intro n b hb
      rw [hexReprAux] at hb
      split at hb
      · simp at hb
      · rcases List.mem_append.1 hb with h | h
        · exact ih _ b h
        · simp at h
          rw [h]
          exact hexDigit_ge _

theorem mem_hexRepr_ge (n b : Nat) (hb : b ∈ hexRepr n) : 48 ≤ b := by
  rw [hexRepr] at hb
  split at hb
  · simp at hb; omega
  · exact mem_hexReprAux_ge n n b hb

theorem mem_hexBytes_ge (l : List Nat) (b : Nat) (hb : b ∈ hexBytes l) :
    48 ≤ b := by
  induction l with
  | nil => simp [hexBytes] at hb
  | cons x xs ih =>
      rw [hexBytes] at hb
      rcases List.mem_append.1 hb with h | h
      · rcases List.mem_cons.1 h with rfl | h2
        · exact hexDigit_ge _
        · rcases List.mem_cons.1 h2 with rfl | h3
          · exact hexDigit_ge _
          · simp at h3
      · exact ih h

theorem mem_v6StrFrom_ge (fuel : Nat) :
    ∀ i gs e0 e1 b, b ∈ v6StrFrom fuel i gs e0 e1 → 46 ≤ b := by
  induction fuel with
  | zero => intro i gs e0 e1 b hb; simp [v6StrFrom] at hb
  | succ fuel ih =>
      intro i gs e0 e1 b hb
      rw [v6StrFrom] at hb
      split at hb
      · simp at hb
      · split at hb
        · rcases List.mem_cons.1 hb with rfl | hb2
          · omega
          · rcases List.mem_cons.1 hb2 with rfl | hb3
            · omega
            · split at hb3
              · simp at hb3
              · rcases List.mem_append.1 hb3 with h | h
                · have := mem_hexRepr_ge _ b h; omega
                · exact ih _ _ _ _ b h
        · rcases List.mem_append.1 hb with h | h
          · rcases List.mem_append.1 h with h2 | h2
            · split at h2
              · rcases List.mem_cons.1 h2 with rfl | h3
                · omega
                · simp at h3
              · simp at h2
            · have := mem_hexRepr_ge _ b h2; omega
          · exact ih _ _ _ _ b h

theorem mem_ipString_ge (ip : List Nat) (b : Nat) (hb : b ∈ ipString ip) :
    46 ≤ b := by
  rw [ipString] at hb
  split at hb
  · rcases List.mem_cons.1 hb with rfl | h
    · omega
    · rcases List.mem_cons.1 h with rfl | h
      · omega
      · rcases List.mem_cons.1 h with rfl | h
        · omega
        · rcases List.mem_cons.1 h with rfl | h
          · omega
          · rcases List.mem_cons.1 h with rfl | h
            · omega
            · simp at h
  · split at hb
    · rcases List.mem_append.1 hb with h | h
      · rcases List.mem_append.1 h with h | h
        · rcases List.mem_append.1 h with h | h
          · have := mem_decRepr_bounds _ b h; omega
          · rcases List.mem_cons.1 h with rfl | h
            · omega
            · have := mem_decRepr_bounds _ b h; omega
        · rcases List.mem_cons.1 h with rfl | h
          · omega
          · have := mem_decRepr_bounds _ b h; omega
      · rcases List.mem_cons.1 h with rfl | h
        · omega
        · have := mem_decRepr_bounds _ b h; omega
    · split at hb
      · rcases List.mem_cons.1 hb with rfl | h
        · omega
        · have := mem_hexBytes_ge _ b h; omega
      · split at hb
        · have := mem_v6StrFrom_ge 9 _ _ _ _ b hb; omega
        · have := mem_v6StrFrom_ge 9 _ _ _ _ b hb; omega

theorem addrString_no_space (a : Addr) : 32 ∉ addrString a := by
  intro hb
  rw [addrString] at hb
  rcases List.mem_append.1 hb with h | h
  · have := mem_ipString_ge a.IP 32 h; omega
  · rcases List.mem_cons.1 h with h2 | h2
    · omega
    · have := mem_decRepr_bounds _ 32 h2; omega

theorem take_append_ge (x y : List Nat) (k : Nat) (h : x.length ≤ k) :
    (x ++ y).take k = x ++ y.take (k - x.length) := by
  rw [List.take_append_eq_append_take, List.take_of_length_le h]

theorem take_append_le (x y : List Nat) (k : Nat) (h : k ≤ x.length) :
    (x ++ y).take k = x.take k := by
  rw [List.take_append_eq_append_take, Nat.sub_eq_zero_of_le h, List.take_zero,
    List.append_nil]

theorem pow_256_4 : (256 : Nat) ^ 4 = 2 ^ 32 := by norm_num

theorem pow_256_8 : (256 : Nat) ^ 8 = 2 ^ 64 := by norm_num

theorem tcpReadLenChunk_exact (n0 : Nat) (ts : List Nat) (ca sa : Addr)
    (C : List Nat) (hL : C.length < 2 ^ 32) :
    tcpReadLenChunk n0 ts ca sa (beBytes 4 C.length ++ C)
      = ⟨n0 + 4 + C.length, .ok ⟨beUint ts, ca, sa, C⟩, []⟩ := by
  have h4 : readFull 4 (beBytes 4 C.length ++ C) = (beBytes 4 C.length, 4, none, C) := by
    have h := readFull_exact (beBytes 4 C.length) C
    rwa [beBytes_length] at h
  have hbe : beUint (beBytes 4 C.length) = C.length :=
    beUint_beBytes 4 _ (by rw [pow_256_4]; exact hL)
  have hC : readFull C.length C = (C, C.length, none, []) := by
    have h := readFull_exact C []
    rwa [List.append_nil] at h
  rw [tcpReadLenChunk, h4]
  simp only [hbe, hC]

theorem tcpReadLenChunk_n_ge (n0 : Nat) (ts : List Nat) (ca sa : Addr)
    (s3 : List Nat) : n0 ≤ (tcpReadLenChunk n0 ts ca sa s3).n := by
  rcases h4 : readFull 4 s3 with ⟨bs, n4, e4, s4⟩
  cases e4 with
  | some e =>
      rw [tcpReadLenChunk, h4]
      simp
  | none =>
      rcases h5 : readFull (beUint bs) s4 with ⟨cs, n5, e5, s5⟩
      rw [tcpReadLenChunk, h4]
      simp only [h5]
      cases e5 <;> simp <;> omega

theorem encodeRecord_parts (r : TCPPacket) :
    encodeRecord r = beBytes 8 r.Timestamp
      ++ (addrString r.ClientAddr ++ 32 ::
          (addrString r.ServerAddr ++ 32 ::
            (beBytes 4 r.Chunk.length ++ r.Chunk))) := by
  simp [encodeRecord]

theorem tcpRead_encode (r : TCPPacket) (hr : ValidRecord r) :
    tcpRead (encodeRecord r) = ⟨(encodeRecord r).length, .ok r, []⟩ := by
  obtain ⟨hca, hsa, hts, hL⟩ := hr
  rcases r with ⟨ts, ca, sa, C⟩
  simp only at hca hsa hts hL
  rw [encodeRecord_parts]
  simp only
  have h1 : readFull 8 (beBytes 8 ts ++ (addrString ca ++ 32 ::
      (addrString sa ++ 32 :: (beBytes 4 C.length ++ C))))
      = (beBytes 8 ts, 8, none,
        addrString ca ++ 32 :: (addrString sa ++ 32 :: (beBytes 4 C.length ++ C))) := by
    have h := readFull_exact (beBytes 8 ts)
      (addrString ca ++ 32 :: (addrString sa ++ 32 :: (beBytes 4 C.length ++ C)))
    rwa [beBytes_length] at h
  have ha1 := readAddrToken_ok (addrString ca)
    (addrString sa ++ 32 :: (beBytes 4 C.length ++ C)) ca
    (addrString_no_space ca) hca
  have ha2 := readAddrToken_ok (addrString sa) (beBytes 4 C.length ++ C) sa
    (addrString_no_space sa) hsa
  have hlc := tcpReadLenChunk_exact
    (8 + ((addrString ca).length + 1) + ((addrString sa).length + 1))
    (beBytes 8 ts) ca sa C hL
  rw [tcpRead, h1]
  simp only [ha1, ha2, hlc]
  rw [beUint_beBytes 8 ts (by rw [pow_256_8]; exact hts)]
  simp only [ReadOutcome.mk.injEq, List.length_append, List.length_cons,
    beBytes_length, and_true, true_and]
  omega

theorem next_exhaust_aux (s : List Nat) (n : Nat) (e : ReadErr) (rest : List Nat)
    (h : tcpRead s = ⟨n, .error e, rest⟩) (he : e = .eof ∨ e = .unexpectedEOF)
    (hn : 0 < n) : Next s = .error .unexpectedEOF := by
  simp only [Next, h]
  rcases he with rfl | rfl
  · rw [if_pos ⟨rfl, by omega⟩]
  · rw [if_neg (by simp)]

theorem tcpRead_eof_nil (s : List Nat) (hres : (tcpRead s).res = .error .eof)
    (hn : (tcpRead s).n = 0) : s = [] := by
  rcases h1 : readFull 8 s with ⟨bs, n1, e1, s1⟩
  cases e1 with
  | some e =>
      rw [tcpRead, h1] at hres hn
      simp only at hres hn
      have he : e = .eof := by
        injection hres with h2
      subst he
      exact (readFull_eof_inv 8 s bs s1 n1 h1).1
  | none =>
      exfalso
      rcases h2 : readAddrToken s1 with ⟨m1, e2, s2⟩ | ⟨m1, ca, s2⟩
      · rw [tcpRead, h1] at hn
        simp only [h2] at hn
        omega
      · rcases h3 : readAddrToken s2 with ⟨m2, e3, s3⟩ | ⟨m2, sa, s3⟩
        · rw [tcpRead, h1] at hn
          simp only [h2, h3] at hn
          omega
        · rw [tcpRead, h1] at hn
          simp only [h2, h3] at hn
          have := tcpReadLenChunk_n_ge (8 + m1 + m2) bs ca sa s3
          omega

theorem next_eof_aux (s : List Nat) (h : Next s = .error .eof) : s = [] := by
  rcases ho : tcpRead s with ⟨n, res, rest⟩
  rcases res with e | tp
  · rw [Next, ho] at h
    simp only at h
    split at h
    · exact absurd h (by simp)
    · rename_i hcond
      have he : e = .eof := by injection h with h2
      subst he
      have hn : n = 0 := by
        by_contra hn0
        exact hcond ⟨rfl, hn0⟩
      exact tcpRead_eof_nil s (by rw [ho]) (by rw [ho]; exact hn)
  · rw [Next, ho] at h
    simp only at h
    exact absurd h (by simp)

theorem next_truncated_aux (B8 T1 T2 B4 C : List Nat) (ca sa : Addr) (k : Nat)
    (h8 : B8.length = 8) (hs1 : 32 ∉ T1) (hs2 : 32 ∉ T2)
    (ha1 : NewAddr T1 = .ok ca) (ha2 : NewAddr T2 = .ok sa)
    (hb4 : B4.length = 4) (hbe : beUint B4 = C.length) (h0 : 0 < k)
    (hk : k < 8 + (T1.length + 1) + (T2.length + 1) + 4 + C.length) :
    Next ((B8 ++ (T1 ++ 32 :: (T2 ++ 32 :: (B4 ++ C)))).take k)
      = .error .unexpectedEOF := by
  have hEl : (B8 ++ (T1 ++ 32 :: (T2 ++ 32 :: (B4 ++ C)))).length
      = 8 + (T1.length + 1) + (T2.length + 1) + 4 + C.length := by
    simp [h8, hb4]
    omega
  by_cases hA : k < 8
  · -- truncated inside the timestamp
    have hlen : ((B8 ++ (T1 ++ 32 :: (T2 ++ 32 :: (B4 ++ C)))).take k).length = k := by
      rw [List.length_take]
      omega
    have hne : (B8 ++ (T1 ++ 32 :: (T2 ++ 32 :: (B4 ++ C)))).take k ≠ [] := by
      intro hh
      rw [hh] at hlen
      simp at hlen
      omega
    have hrf := readFull_partial 8 _ hne (by omega)
    rw [hlen] at hrf
    exact next_exhaust_aux _ k .unexpectedEOF []
      (by rw [tcpRead, hrf]) (Or.inr rfl) h0
  · -- the 8 timestamp bytes are complete
    have htk : (B8 ++ (T1 ++ 32 :: (T2 ++ 32 :: (B4 ++ C)))).take k
        = B8 ++ (T1 ++ 32 :: (T2 ++ 32 :: (B4 ++ C))).take (k - 8) := by
      rw [take_append_ge _ _ _ (by omega), h8]
    have hrf : readFull 8 ((B8 ++ (T1 ++ 32 :: (T2 ++ 32 :: (B4 ++ C)))).take k)
        = (B8, 8, none, (T1 ++ 32 :: (T2 ++ 32 :: (B4 ++ C))).take (k - 8)) := by
      rw [htk]
      have h := readFull_exact B8 ((T1 ++ 32 :: (T2 ++ 32 :: (B4 ++ C))).take (k - 8))
      rwa [h8] at h
    by_cases hB1 : k - 8 ≤ T1.length
    · -- truncated inside the client token
      have ht1 : (T1 ++ 32 :: (T2 ++ 32 :: (B4 ++ C))).take (k - 8)
          = T1.take (k - 8) := take_append_le _ _ _ hB1
      have hno : 32 ∉ T1.take (k - 8) :=
        fun hmem => hs1 (List.take_subset (k - 8) T1 hmem)
      have hat := readAddrToken_exhaust _ hno
      have hlt : (T1.take (k - 8)).length = k - 8 := by
        rw [List.length_take]
        omega
      exact next_exhaust_aux _ (8 + (k - 8)) .eof []
        (by rw [tcpRead, hrf]; simp only [ht1, hat, hlt]) (Or.inl rfl) (by omega)
    · -- client token and its space are complete
      have ht1 : (T1 ++ 32 :: (T2 ++ 32 :: (B4 ++ C))).take (k - 8)
          = T1 ++ 32 :: ((T2 ++ 32 :: (B4 ++ C)).take (k - 8 - (T1.length + 1))) := by
        have hsplit : T1 ++ 32 :: (T2 ++ 32 :: (B4 ++ C))
            = (T1 ++ [32]) ++ (T2 ++ 32 :: (B4 ++ C)) := by simp
        rw [hsplit, take_append_ge _ _ _ (by simp; omega)]
        simp
      by_cases hB2 : k - 8 - (T1.length + 1) ≤ T2.length
      · -- truncated inside the server token
        have ht2 : (T2 ++ 32 :: (B4 ++ C)).take (k - 8 - (T1.length + 1))
            = T2.take (k - 8 - (T1.length + 1)) := take_append_le _ _ _ hB2
        have hok1 := readAddrToken_ok T1
          (T2.take (k - 8 - (T1.length + 1))) ca hs1 ha1
        have hno : 32 ∉ T2.take (k - 8 - (T1.length + 1)) :=
          fun hmem => hs2 (List.take_subset _ T2 hmem)
        have hat := readAddrToken_exhaust _ hno
        have hlt : (T2.take (k - 8 - (T1.length + 1))).length
            = k - 8 - (T1.length + 1) := by
          rw [List.length_take]
          omega
        exact next_exhaust_aux _
          (8 + (T1.length + 1) + (k - 8 - (T1.length + 1))) .eof []
          (by rw [tcpRead, hrf]; simp only [ht1, ht2, hok1, hat, hlt])
          (Or.inl rfl) (by omega)
      · -- both tokens complete
        have ht2 : (T2 ++ 32 :: (B4 ++ C)).take (k - 8 - (T1.length + 1))
            = T2 ++ 32 :: ((B4 ++ C).take (k - 8 - (T1.length + 1) - (T2.length + 1))) := by
          have hsplit : T2 ++ 32 :: (B4 ++ C) = (T2 ++ [32]) ++ (B4 ++ C) := by simp
          rw [hsplit, take_append_ge _ _ _ (by simp; omega)]
          simp
        have hj3 : k - 8 - (T1.length + 1) - (T2.length + 1) < 4 + C.length := by
          omega
        by_cases hB3 : k - 8 - (T1.length + 1) - (T2.length + 1) < 4
        · by_cases hj30 : k - 8 - (T1.length + 1) - (T2.length + 1) = 0
          · -- exhausted exactly before the length header
            have htb : (B4 ++ C).take (k - 8 - (T1.length + 1) - (T2.length + 1))
                = [] := by
              rw [hj30]
              rfl
            have hok1 := readAddrToken_ok T1 (T2 ++ 32 :: []) ca hs1 ha1
            have hok2 := readAddrToken_ok T2 ([] : List Nat) sa hs2 ha2
            have hrl := readFull_nil 4 (by omega)
            exact next_exhaust_aux _
              (8 + (T1.length + 1) + (T2.length + 1) + 0) .eof []
              (by rw [tcpRead, hrf]
                  simp only [ht1, ht2, htb, hok1, hok2, tcpReadLenChunk, hrl])
              (Or.inl rfl) (by omega)
          · -- truncated inside the length header
            have htb : (B4 ++ C).take (k - 8 - (T1.length + 1) - (T2.length + 1))
                = B4.take (k - 8 - (T1.length + 1) - (T2.length + 1)) :=
              take_append_le _ _ _ (by omega)
            have hok1 := readAddrToken_ok T1
              (T2 ++ 32 :: B4.take (k - 8 - (T1.length + 1) - (T2.length + 1)))
              ca hs1 ha1
            have hok2 := readAddrToken_ok T2
              (B4.take (k - 8 - (T1.length + 1) - (T2.length + 1))) sa hs2 ha2
            have hlt : (B4.take (k - 8 - (T1.length + 1) - (T2.length + 1))).length
                = k - 8 - (T1.length + 1) - (T2.length + 1) := by
              rw [List.length_take]
              omega
            have hne : B4.take (k - 8 - (T1.length + 1) - (T2.length + 1)) ≠ [] := by
              intro hh
              rw [hh] at hlt
              simp at hlt
              omega
            have hrl := readFull_partial 4 _ hne (by omega)
            rw [hlt] at hrl
            exact next_exhaust_aux _
              (8 + (T1.length + 1) + (T2.length + 1)
                + (k - 8 - (T1.length + 1) - (T2.length + 1))) .unexpectedEOF []
              (by rw [tcpRead, hrf]
                  simp only [ht1, ht2, htb, hok1, hok2, tcpReadLenChunk, hrl])
              (Or.inr rfl) (by omega)
        · -- length header complete
          have hj4 : k - 8 - (T1.length + 1) - (T2.length + 1) - 4 < C.length := by
            omega
          by_cases hj40 : k - 8 - (T1.length + 1) - (T2.length + 1) - 4 = 0
          · -- exhausted exactly before a nonempty payload
            have htb : (B4 ++ C).take (k - 8 - (T1.length + 1) - (T2.length + 1))
                = B4 := by
              rw [take_append_ge _ _ _ (by omega), hb4, hj40, List.take_zero,
                List.append_nil]
            have hok1 := readAddrToken_ok T1 (T2 ++ 32 :: B4) ca hs1 ha1
            have hok2 := readAddrToken_ok T2 B4 sa hs2 ha2
            have hrl : readFull 4 B4 = (B4, 4, none, []) := by
              have h := readFull_exact B4 []
              rwa [hb4, List.append_nil] at h
            have hrc : readFull (beUint B4) [] = ([], 0, some .eof, []) :=
              readFull_nil _ (by omega)
            exact next_exhaust_aux _
              (8 + (T1.length + 1) + (T2.length + 1) + 4 + 0) .eof []
              (by rw [tcpRead, hrf]
                  simp only [ht1, ht2, htb, hok1, hok2, tcpReadLenChunk, hrl, hrc])
              (Or.inl rfl) (by omega)
          · -- truncated inside the payload
            have htb : (B4 ++ C).take (k - 8 - (T1.length + 1) - (T2.length + 1))
                = B4 ++ C.take (k - 8 - (T1.length + 1) - (T2.length + 1) - 4) := by
              rw [take_append_ge _ _ _ (by omega), hb4]
            have hok1 := readAddrToken_ok T1
              (T2 ++ 32 :: (B4 ++ C.take (k - 8 - (T1.length + 1) - (T2.length + 1) - 4)))
              ca hs1 ha1
            have hok2 := readAddrToken_ok T2
              (B4 ++ C.take (k - 8 - (T1.length + 1) - (T2.length + 1) - 4)) sa hs2 ha2
            have hrl : readFull 4 (B4 ++ C.take (k - 8 - (T1.length + 1) - (T2.length + 1) - 4))
                = (B4, 4, none, C.take (k - 8 - (T1.length + 1) - (T2.length + 1) - 4)) := by
              have h := readFull_exact B4
                (C.take (k - 8 - (T1.length + 1) - (T2.length + 1) - 4))
              rwa [hb4] at h
            have hlt : (C.take (k - 8 - (T1.length + 1) - (T2.length + 1) - 4)).length
                = k - 8 - (T1.length + 1) - (T2.length + 1) - 4 := by
              rw [List.length_take]
              omega
            have hne : C.take (k - 8 - (T1.length + 1) - (T2.length + 1) - 4) ≠ [] := by
              intro hh
              rw [hh] at hlt
              simp at hlt
              omega
            have hrc : readFull (beUint B4)
                (C.take (k - 8 - (T1.length + 1) - (T2.length + 1) - 4))
                = (C.take (k - 8 - (T1.length + 1) - (T2.length + 1) - 4),
                  k - 8 - (T1.length + 1) - (T2.length + 1) - 4,
                  some .unexpectedEOF, []) := by
              have h := readFull_partial (beUint B4) _ hne (by rw [hlt, hbe]; omega)
              rwa [hlt] at h
            exact next_exhaust_aux _
              (8 + (T1.length + 1) + (T2.length + 1) + 4
                + (k - 8 - (T1.length + 1) - (T2.length + 1) - 4)) .unexpectedEOF []
              (by rw [tcpRead, hrf]
                  simp only [ht1, ht2, htb, hok1, hok2, tcpReadLenChunk, hrl, hrc])
              (Or.inr rfl) (by omega)

/-- C3: for every Captured Record whose client/server address pair is valid
(both addresses round-trip through the Address Codec) and whose timestamp
and payload length fit their wire fields, decoding the Row Codec write
path's encoding with the read path reproduces the record byte-for-byte and
consumes the entire encoding. -/
theorem record_roundtrip (r : TCPPacket) (hr : ValidRecord r) :
    Next (encodeRecord r) = .ok (r, []) := by
  rw [Next, tcpRead_encode r hr]

/-- Witness for `record_roundtrip` at a concrete captured record. -/
theorem record_roundtrip_witness :
    ValidRecord ⟨1611246561685581000,
        ⟨[0, 0, 0, 0, 0, 0, 0, 0, 0, 0, 255, 255, 127, 0, 0, 1], 64245⟩,
        ⟨[0, 0, 0, 0, 0, 0, 0, 0, 0, 0, 255, 255, 10, 0, 0, 1], 5432⟩,
        [81, 0, 0, 0, 5, 65]⟩ ∧
      Next (encodeRecord ⟨1611246561685581000,
          ⟨[0, 0, 0, 0, 0, 0, 0, 0, 0, 0, 255, 255, 127, 0, 0, 1], 64245⟩,
          ⟨[0, 0, 0, 0, 0, 0, 0, 0, 0, 0, 255, 255, 10, 0, 0, 1], 5432⟩,
          [81, 0, 0, 0, 5, 65]⟩)
        = .ok (⟨1611246561685581000,
          ⟨[0, 0, 0, 0, 0, 0, 0, 0, 0, 0, 255, 255, 127, 0, 0, 1], 64245⟩,
          ⟨[0, 0, 0, 0, 0, 0, 0, 0, 0, 0, 255, 255, 10, 0, 0, 1], 5432⟩,
          [81, 0, 0, 0, 5, 65]⟩, []) :=
  ⟨by decide, record_roundtrip _ (by decide)⟩

/-- C2: `Next` yields the clean end-of-stream signal exactly when zero
bytes of a record were consumed (the source is exhausted at a record
boundary, i.e. it is empty); any exhaustion of the underlying read after at
least one consumed byte — mid-timestamp, mid-address-token, mid-length or
mid-payload — surfaces as `UnexpectedEnd`; and truncating a valid record's
encoding anywhere strictly inside it yields `UnexpectedEnd`, never a record
with a short payload. -/
theorem next_clean_end_iff :
    (∀ s : List Nat, Next s = .error .eof ↔ (tcpRead s).n = 0 ∧ s = []) ∧
      (∀ (s : List Nat) (n : Nat) (e : ReadErr) (rest : List Nat),
        tcpRead s = ⟨n, .error e, rest⟩ → (e = .eof ∨ e = .unexpectedEOF) →
        0 < n → Next s = .error .unexpectedEOF) ∧
      (∀ (r : TCPPacket) (k : Nat), ValidRecord r → 0 < k →
        k < (encodeRecord r).length →
        Next ((encodeRecord r).take k) = .error .unexpectedEOF) := by
  refine ⟨?_, ?_, ?_⟩
  · intro s
    constructor
    · intro h
      have hnil := next_eof_aux s h
      subst hnil
      exact ⟨rfl, rfl⟩
    · rintro ⟨-, rfl⟩
      decide
  · exact next_exhaust_aux
  · intro r k hr h0 hk
    obtain ⟨hca, hsa, hts, hL⟩ := hr
    rcases r with ⟨ts, ca, sa, C⟩
    simp only at hca hsa hts hL
    rw [encodeRecord_parts] at hk ⊢
    simp only at hk ⊢
    have hb4 : (beBytes 4 C.length).length = 4 := beBytes_length 4 _
    have hbe : beUint (beBytes 4 C.length) = C.length :=
      beUint_beBytes 4 _ (by rw [pow_256_4]; exact hL)
    have hEl : (beBytes 8 ts ++ (addrString ca ++ 32 :: (addrString sa ++ 32 ::
        (beBytes 4 C.length ++ C)))).length
        = 8 + ((addrString ca).length + 1) + ((addrString sa).length + 1)
          + 4 + C.length := by
      simp only [List.length_append, List.length_cons, beBytes_length]
      omega
    rw [hEl] at hk
    exact next_truncated_aux (beBytes 8 ts) (addrString ca) (addrString sa)
      (beBytes 4 C.length) C ca sa k (beBytes_length 8 _)
      (addrString_no_space ca) (addrString_no_space sa) hca hsa hb4 hbe h0 hk

/-- Witness for `next_clean_end_iff`: a clean end on the empty source, an
`UnexpectedEnd` after one byte, and an `UnexpectedEnd` on a truncation of a
concrete valid record's encoding. -/
theorem next_clean_end_iff_witness :
    Next [] = .error .eof ∧ Next [0] = .error .unexpectedEOF ∧
      Next ((encodeRecord ⟨0,
          ⟨[0, 0, 0, 0, 0, 0, 0, 0, 0, 0, 255, 255, 127, 0, 0, 1], 1⟩,
          ⟨[0, 0, 0, 0, 0, 0, 0, 0, 0, 0, 255, 255, 127, 0, 0, 1], 1⟩,
          [7]⟩).take 30) = .error .unexpectedEOF :=
  ⟨(next_clean_end_iff.1 []).2 ⟨rfl, rfl⟩,
    next_clean_end_iff.2.1 [0] 1 .unexpectedEOF [] (by decide) (Or.inr rfl)
      (by decide),
    next_clean_end_iff.2.2 ⟨0,
      ⟨[0, 0, 0, 0, 0, 0, 0, 0, 0, 0, 255, 255, 127, 0, 0, 1], 1⟩,
      ⟨[0, 0, 0, 0, 0, 0, 0, 0, 0, 0, 255, 255, 127, 0, 0, 1], 1⟩,
      [7]⟩ 30 (by decide) (by decide) (by decide)⟩

/-- C9 counterexample: for the token `"127.0.0.1:99999"` (an out-of-range
port) `NewAddr` fails with the propagated `strconv.NumError`, which is not
the repository's typed `InvalidAddress`/`ErrParsingIP` variant. -/
theorem newAddr_bad_port_not_typed :
    NewAddr [49, 50, 55, 46, 48, 46, 48, 46, 49, 58, 57, 57, 57, 57, 57]
        = .error .numError ∧
      (AddrErr.numError
        = AddrErr.parsingIP [49, 50, 55, 46, 48, 46, 48, 46, 49]) = False := by
  constructor
  · decide
  · decide

/-- C9 (amended): all three failure modes fail, but with different error
variants: a non-IP host yields the repository's typed `ErrParsingIP`
(`InvalidAddress`) error carrying the host text, while a non-numeric or
out-of-range port propagates the `strconv` numeric error instead. -/
theorem newAddr_failure_modes (b host portStr : List Nat)
    (hs : splitHostPort b = .ok (host, portStr)) :
    (parseIP host = none → NewAddr b = .error (.parsingIP host)) ∧
      (∀ ip, parseIP host = some ip → parseUint16 portStr = .error () →
        NewAddr b = .error .numError) := by
  constructor
  · intro hip
    simp [NewAddr, hs, hip]
  · intro ip hip hport
    simp [NewAddr, hs, hip, hport]

/-- Witness for `newAddr_failure_modes`: host failure mode on `"abc:1"` and
port failure mode on `"1.2.3.4:x"`. -/
theorem newAddr_failure_modes_witness :
    NewAddr [97, 98, 99, 58, 49] = .error (.parsingIP [97, 98, 99]) ∧
      NewAddr [49, 46, 50, 46, 51, 46, 52, 58, 120] = .error .numError :=
  ⟨(newAddr_failure_modes [97, 98, 99, 58, 49] [97, 98, 99] [49]
      (by decide)).1 (by decide),
    (newAddr_failure_modes [49, 46, 50, 46, 51, 46, 52, 58, 120]
      [49, 46, 50, 46, 51, 46, 52] [120] (by decide)).2
      [0, 0, 0, 0, 0, 0, 0, 0, 0, 0, 255, 255, 1, 2, 3, 4]
      (by decide) (by decide)⟩

/-- C10: every chunk shorter than 5 bytes — whatever its first byte — is
rejected by `ParseChunk` with the typed "message must contain at least 5
bytes" error; neither the untagged pre-handshake comparisons nor the startup
path is reached, so no such chunk is classified as any request. -/
theorem parseChunk_short_rejected (chunk : List Nat) (h : chunk.length < 5) :
    ParseChunk chunk = .err (.parsingClientMessage 5 chunk.length) := by
  simp [ParseChunk, parseFrontendMessage, h]

/-- Witness for `parseChunk_short_rejected` at the empty chunk. -/
theorem parseChunk_short_rejected_witness :
    ParseChunk [] = .err (.parsingClientMessage 5 0) :=
  parseChunk_short_rejected [] (by decide)

/-- C1: a 5-byte chunk whose first byte `'z'` is not a registered tag drives
`ParseChunk` into the untagged path, where only `len(chunk) == 0` is checked
before `chunk[:8]` is evaluated: the comparison is an out-of-range slice
access (a Go panic), not the claimed typed "at least 8 bytes" error. -/
theorem parseChunk_unregistered_five_bytes_panics :
    ParseChunk [122, 122, 122, 122, 122] = .panic := by decide

/-- C5 counterexample: the 1-byte chunk `['F']` fails with the "at least 5
bytes" error of the tagged path, not with `NotImplemented`. -/
theorem parseChunk_F_short_not_notImplemented :
    ParseChunk [70] ≠ .err .notImplemented := by decide

/-- C5 (amended): every chunk of length at least 5 whose first byte is `'F'`
fails with the distinguishable `NotImplemented` error and no body decode is
attempted. -/
theorem parseChunk_F_notImplemented (chunk : List Nat) (h5 : 5 ≤ chunk.length)
    (hF : chunk.headD 0 = 70) :
    ParseChunk chunk = .err .notImplemented := by
  have h : ¬ chunk.length < 5 := by omega
  rw [List.headD_eq_head?] at hF
  simp [ParseChunk, parseFrontendMessage, h, hF, registryDecode, liftMsg]

/-- Witness for `parseChunk_F_notImplemented`. -/
theorem parseChunk_F_notImplemented_witness :
    ParseChunk [70, 0, 0, 0, 4] = .err .notImplemented :=
  parseChunk_F_notImplemented [70, 0, 0, 0, 4] (by decide) (by decide)

/-- C6 counterexample: for the SQL byte string `[0]` (a lone NUL byte) the
chunk `'Q' + u32be(4+1+1) + [0] + '\x00'` is rejected by `pgproto3`'s
`Query.Decode` (the first NUL is not the final byte), so it does not
classify as a Query carrying that text. -/
theorem parseChunk_query_null_sql_fails :
    ParseChunk [81, 0, 0, 0, 6, 0, 0] ≠ .ok (.query [0]) := by decide

/-- C6 (amended): for every SQL byte string containing no NUL byte, the
chunk `'Q' + u32be(4+len(sql)+1) + sql + '\x00'` classifies as a Query
carrying exactly that SQL text. -/
theorem parseChunk_query (sql : List Nat) (h : 0 ∉ sql) :
    ParseChunk (81 :: beBytes 4 (4 + sql.length + 1) ++ sql ++ [0])
      = .ok (.query sql) := by
  have hlen : ¬ (81 :: beBytes 4 (4 + sql.length + 1) ++ sql ++ [0]).length < 5 := by
    simp only [List.length_cons, List.length_append, beBytes_length]
    omega
  have hdrop : (beBytes 4 (4 + sql.length + 1) ++ (sql ++ [0])).drop 4
      = sql ++ [0] := List.drop_left' (beBytes_length 4 _)
  have hq : queryDecode (sql ++ [0]) = .ok (.query sql) := by
    have htake : (sql ++ [0]).take sql.length = sql := List.take_left' rfl
    simp [queryDecode, findIdx_not_mem_append 0 sql [] h, htake]
  have hpfm : parseFrontendMessage (81 :: beBytes 4 (4 + sql.length + 1) ++ sql ++ [0])
      = .ok (some (.query sql)) := by
    rw [parseFrontendMessage, if_neg hlen]
    simp [registryDecode, liftMsg, List.append_assoc, hdrop, hq]
  simp only [ParseChunk, hpfm]

/-- Witness for `parseChunk_query` with `sql = "A"`. -/
theorem parseChunk_query_witness :
    ParseChunk [81, 0, 0, 0, 6, 65, 0] = .ok (.query [65]) :=
  parseChunk_query [65] (by decide)

/-- C7: any chunk whose first 8 bytes are `u32be(8) ++ u32be(80877103)`
classifies as the SSL-negotiation request, whatever follows. -/
theorem parseChunk_sslRequest (rest : List Nat) :
    ParseChunk (sslRequestMagic ++ rest) = .ok .sslRequest := by
  have h8 : sslRequestMagic.length = 8 := rfl
  have hpfm : parseFrontendMessage (sslRequestMagic ++ rest) = .ok none := by rfl
  have hne : ¬ (sslRequestMagic ++ rest).length = 0 := by
    rw [List.length_append, h8]; omega
  have hle : 8 ≤ (sslRequestMagic ++ rest).length := by
    rw [List.length_append, h8]; omega
  have hgo : goSlice (sslRequestMagic ++ rest) 0 8 = some sslRequestMagic := by
    simp only [goSlice]
    rw [if_pos ⟨Nat.zero_le 8, hle⟩, List.drop_zero, List.take_left' h8]
  simp only [ParseChunk, hpfm]
  rw [if_neg hne, hgo]
  rfl

/-- C4: two chunks of length at least 5 sharing the same registered first
tag byte and identical bytes from index 5 on classify identically — the
four declared-length bytes `chunk[1:5]` never influence the result. -/
theorem parseChunk_ignores_declared_length (c1 c2 : List Nat)
    (h1 : 5 ≤ c1.length) (h2 : 5 ≤ c2.length)
    (hhead : c1.headD 0 = c2.headD 0) (htag : c1.headD 0 ∈ registryTags)
    (hbody : c1.drop 5 = c2.drop 5) :
    ParseChunk c1 = ParseChunk c2 := by
  simp only [List.headD_eq_head?] at hhead htag
  obtain ⟨r, hr⟩ : ∃ r, registryDecode (c1.head?.getD 0) (c1.drop 5) = some r := by
    simp only [registryTags, List.mem_cons, List.not_mem_nil, or_false] at htag
    rcases htag with h | h | h | h | h | h | h | h | h | h | h | h | h | h <;>
      rw [h] <;> exact ⟨_, rfl⟩
  have hr2 : registryDecode (c2.head?.getD 0) (c2.drop 5) = some r := by
    rw [← hhead, ← hbody]; exact hr
  have hn1 : ¬ c1.length < 5 := by omega
  have hn2 : ¬ c2.length < 5 := by omega
  cases r with
  | ok m => simp [ParseChunk, parseFrontendMessage, hn1, hn2, hr, hr2, liftMsg]
  | err e => simp [ParseChunk, parseFrontendMessage, hn1, hn2, hr, hr2, liftMsg]
  | panic => simp [ParseChunk, parseFrontendMessage, hn1, hn2, hr, hr2, liftMsg]

/-- Witness for `parseChunk_ignores_declared_length`: two `'Q'` chunks that
differ only in the declared-length bytes classify identically. -/
theorem parseChunk_ignores_declared_length_witness :
    ParseChunk [81, 0, 0, 0, 0, 0] = ParseChunk [81, 9, 9, 9, 9, 0] :=
  parseChunk_ignores_declared_length [81, 0, 0, 0, 0, 0] [81, 9, 9, 9, 9, 0]
    (by decide) (by decide) (by decide) (by decide) (by decide)

/-- C8: encoding a `Byte1pMessage` yields exactly the `'p'` tag byte, the
4-byte big-endian length `payload length + 4`, and the raw payload; and
`ParseChunk` classifies that encoding back into a `Byte1pMessage` carrying
the original payload. -/
theorem byte1p_encode_decode (data : List Nat) :
    byte1pEncode data [] = 112 :: beBytes 4 (4 + data.length) ++ data ∧
    ParseChunk (byte1pEncode data []) = .ok (.byte1p data) := by
  have henc : byte1pEncode data [] = 112 :: beBytes 4 (4 + data.length) ++ data := by
    simp [byte1pEncode, putUint32BE]
  refine ⟨henc, ?_⟩
  rw [henc]
  have hlen : ¬ (112 :: beBytes 4 (4 + data.length) ++ data).length < 5 := by
    simp only [List.length_cons, List.length_append, beBytes_length]
    omega
  have hdrop : (beBytes 4 (4 + data.length) ++ data).drop 4 = data :=
    List.drop_left' (beBytes_length 4 _)
  have hpfm : parseFrontendMessage (112 :: beBytes 4 (4 + data.length) ++ data)
      = .ok (some (.byte1p data)) := by
    rw [parseFrontendMessage, if_neg hlen]
    simp [registryDecode, byte1pDecode, liftMsg, hdrop]
  simp only [ParseChunk, hpfm]

end TcpReplay
